import Mathlib

/-!
Verification development for the SystemwideEQ DSP core.

Shallow embedding of `equaliser/dsp/filters.py` and `equaliser/dsp/engine.py`.
Audio samples are modelled as real numbers (exact arithmetic in place of
IEEE floats); a 2-D numpy block of shape (frames, channels) is modelled as a
`List (List ℝ)` of frames, each frame holding one sample per channel.
Python exceptions are modelled with `Except String`; numpy's in-place
mutation of buffers is modelled by returning, alongside the result, the
value held by the caller's input buffer after the call.
-/

namespace SystemwideEQ

noncomputable section

/-- Embeds `EQBand` (filters.py): one parametric peaking-filter band. -/
structure EQBand where
  frequency : ℝ
  gain_db : ℝ
  q : ℝ
  enabled : Bool

/-- Embeds `EQBand.clip`: copy with frequency constrained by `np.clip`
(`np.clip x lo hi = min (max x lo) hi`). -/
def EQBand.clip (b : EQBand) (min_freq max_freq : ℝ) : EQBand :=
  { frequency := min (max b.frequency min_freq) max_freq
    gain_db := b.gain_db
    q := b.q
    enabled := b.enabled }

/-- A 3-element coefficient vector (the `(3,)`-shaped numpy arrays of
filters.py, made rectangular by the type). -/
structure Coeffs where
  c0 : ℝ
  c1 : ℝ
  c2 : ℝ

/-- Embeds `design_peaking_eq` (filters.py): raw RBJ peaking-EQ
coefficients `(b, a)` for a band, identity coefficients for a disabled
band. `10 ** x` is real exponentiation, `np.clip` is `min (max · lo) hi`. -/
def design_peaking_eq (band : EQBand) (sample_rate : ℝ) : Coeffs × Coeffs :=
  if band.enabled = false then
    (⟨1, 0, 0⟩, ⟨1, 0, 0⟩)
  else
    let freq := min (max band.frequency 20) (sample_rate / 2.1)
    let gain := band.gain_db
    let q := max 0.05 band.q
    let a_gain : ℝ := (10 : ℝ) ^ (gain / 40)
    let omega := 2 * Real.pi * freq / sample_rate
    let alpha := Real.sin omega / (2 * q)
    (⟨1 + alpha * a_gain, -2 * Real.cos omega, 1 - alpha * a_gain⟩,
     ⟨1 + alpha / a_gain, -2 * Real.cos omega, 1 - alpha / a_gain⟩)

/-- Embeds the `BiquadFilter` object: normalized coefficients
`b0 b1 b2 a1 a2`, channel count, and the per-channel `(z1, z2)` delay
state (`self.state`, one pair per channel). -/
structure BiquadFilter where
  b0 : ℝ
  b1 : ℝ
  b2 : ℝ
  a1 : ℝ
  a2 : ℝ
  channels : ℕ
  state : List (ℝ × ℝ)

/-- Embeds `BiquadFilter.__init__`: rejects `channels < 1`, normalizes both
coefficient vectors by `a[0]`, and allocates a zeroed per-channel
2-slot delay state. (The `(3,)` shape check of the source is made
static by the `Coeffs` type.) -/
def BiquadFilter.init (b a : Coeffs) (channels : ℕ) : Except String BiquadFilter :=
  if channels < 1 then
    .error "BiquadFilter needs at least one channel"
  else
    .ok { b0 := b.c0 / a.c0
          b1 := b.c1 / a.c0
          b2 := b.c2 / a.c0
          a1 := a.c1 / a.c0
          a2 := a.c2 / a.c0
          channels := channels
          state := List.replicate channels (0, 0) }

/-- Embeds `BiquadFilter.from_eq_band`. -/
def BiquadFilter.from_eq_band (band : EQBand) (sample_rate : ℝ) (channels : ℕ) :
    Except String BiquadFilter :=
  let ba := design_peaking_eq band sample_rate
  BiquadFilter.init ba.1 ba.2 channels

/-- A 2-D audio block of shape (frames, channels): a list of frames. -/
abbrev Block := List (List ℝ)

/-- The shape check of `process`/`process_block`: every frame holds
exactly `channels` samples (`block.shape[1] == channels`; a numpy block
is 2-D by construction in this model). -/
def validShape (channels : ℕ) (block : Block) : Bool :=
  block.all (fun frame => frame.length == channels)

/-- Column `ch` of a block (`block[:, ch]`). -/
def column (ch : ℕ) (block : Block) : List ℝ :=
  block.map (fun frame => frame.getD ch 0)

/-- One step of the direct-form-II-transposed recurrence of
`BiquadFilter.process`'s inner loop: returns `(out, z1', z2')`. -/
def biquadStep (b0 b1 b2 a1 a2 : ℝ) (z1 z2 sample : ℝ) : ℝ × ℝ × ℝ :=
  let out := b0 * sample + z1
  let z1n := b1 * sample - a1 * out + z2
  let z2n := b2 * sample - a2 * out
  (out, z1n, z2n)

/-- The per-channel sample loop of `BiquadFilter.process`: runs the
recurrence over one channel's samples, returning the output column and the
final `(z1, z2)` pair. The five coefficients are read into locals before
the loop, exactly as in the source. -/
def biquadChannel (b0 b1 b2 a1 a2 : ℝ) (z1 z2 : ℝ) : List ℝ → List ℝ × ℝ × ℝ
  | [] => ([], z1, z2)
  | x :: xs =>
    let s := biquadStep b0 b1 b2 a1 a2 z1 z2 x
    let rest := biquadChannel b0 b1 b2 a1 a2 s.2.1 s.2.2 xs
    (s.1 :: rest.1, rest.2)

/-- The delay state of channel `ch` (`self.state[ch]`). -/
def chState (f : BiquadFilter) (ch : ℕ) : ℝ × ℝ :=
  f.state.getD ch (0, 0)

/-- The `for ch in range(self.channels)` body of `BiquadFilter.process`
for one channel `ch`: run the recurrence over column `ch` of the block,
starting from that channel's stored state. -/
def runChannel (f : BiquadFilter) (block : Block) (ch : ℕ) : List ℝ × ℝ × ℝ :=
  biquadChannel f.b0 f.b1 f.b2 f.a1 f.a2 (chState f ch).1 (chState f ch).2
    (column ch block)

/-- The per-channel final `(z1, z2)` pairs persisted by
`BiquadFilter.process` (`self.state[ch, 0] = z1; self.state[ch, 1] = z2`). -/
def processedState (f : BiquadFilter) (block : Block) : List (ℝ × ℝ) :=
  (List.range f.channels).map (fun ch => (runChannel f block ch).2)

/-- The output buffer `y` of `BiquadFilter.process`: frame `i`, channel
`ch` holds sample `i` of channel `ch`'s output column. -/
def processedOut (f : BiquadFilter) (block : Block) : Block :=
  (List.range block.length).map
    (fun i => (List.range f.channels).map (fun ch => (runChannel f block ch).1.getD i 0))

/-- Embeds `BiquadFilter.process`: validates the shape, runs the
recurrence independently on every channel starting from that channel's
stored state, writes each output column into the output buffer `y`, and
persists each channel's final `(z1, z2)`. Returns the updated filter and
the output block. -/
def BiquadFilter.process (f : BiquadFilter) (block : Block) :
    Except String (BiquadFilter × Block) :=
  if validShape f.channels block = false then
    .error "Audio block channel mismatch"
  else
    .ok ({ f with state := processedState f block }, processedOut f block)

/-- Embeds the `EQFilterChain` object: sample rate, channel count, the
stored band list (`self._bands`) and the live filter list
(`self._filters`). -/
structure EQFilterChain where
  sample_rate : ℝ
  channels : ℕ
  bands : List EQBand
  filters : List BiquadFilter

/-- Embeds `EQFilterChain.__init__`: empty band and filter lists. -/
def EQFilterChain.init (sample_rate : ℝ) (channels : ℕ) : EQFilterChain :=
  { sample_rate := sample_rate, channels := channels, bands := [], filters := [] }

/-- The list comprehension of `set_bands` building one `BiquadFilter` per
band via `from_eq_band`; the first constructor failure propagates as the
raised exception. -/
def buildFilters (sample_rate : ℝ) (channels : ℕ) :
    List EQBand → Except String (List BiquadFilter)
  | [] => .ok []
  | b :: bs =>
    match BiquadFilter.from_eq_band b sample_rate channels with
    | .error m => .error m
    | .ok f =>
      match buildFilters sample_rate channels bs with
      | .error m => .error m
      | .ok fs => .ok (f :: fs)

/-- Embeds `EQFilterChain.set_bands`: stores the clipped bands, then
builds one filter per *enabled* stored band, in order. If a constructor
raises, the bands have already been assigned but the old filters remain
(Python assigns `self._bands` before building `self._filters`). -/
def EQFilterChain.set_bands (c : EQFilterChain) (bands : List EQBand) :
    Except String Unit × EQFilterChain :=
  let clipped := bands.map (fun b => b.clip 20 (c.sample_rate / 2.1))
  match buildFilters c.sample_rate c.channels (clipped.filter (fun b => b.enabled)) with
  | .error m => (.error m, { c with bands := clipped })
  | .ok fs => (.ok (), { c with bands := clipped, filters := fs })

/-- The cascade loop of `EQFilterChain.process`: feeds the block through
each filter in order; on a raise the remaining filters keep their old
state (a filter's own raise happens before it mutates its state). The
returned list is the filter list with the post-call states. -/
def chainRun : List BiquadFilter → Block → Except String Block × List BiquadFilter
  | [], out => (.ok out, [])
  | f :: fs, out =>
    match f.process out with
    | .error m => (.error m, f :: fs)
    | .ok (f2, out2) =>
      let rest := chainRun fs out2
      (rest.1, f2 :: rest.2)

/-- Embeds `EQFilterChain.process`: with no filters the input is returned
unchanged — and, crucially, *aliased* (the very same buffer, not a copy);
otherwise the cascade runs. The second component is the chain after the
call (filter states updated). -/
def EQFilterChain.process (c : EQFilterChain) (block : Block) :
    Except String Block × EQFilterChain :=
  if c.filters.isEmpty then (.ok block, c)
  else
    let r := chainRun c.filters block
    (r.1, { c with filters := r.2 })

/-- Embeds `MeterSnapshot` (engine.py): input/output RMS pair. -/
structure MeterSnapshot where
  input_rms : ℝ
  output_rms : ℝ

/-- Total number of samples in a block (`block.size`). -/
def blockSize (block : Block) : ℕ :=
  (block.map List.length).sum

/-- Sum of squares of all samples (`np.square` then summation, the sum
inside `np.mean`). -/
def sumSquares (block : Block) : ℝ :=
  (block.map (fun frame => (frame.map (fun x => x * x)).sum)).sum

/-- Embeds `rms` (engine.py): `0.0` for an empty block, otherwise
`sqrt(mean(square(block)))` over all samples and channels combined. -/
def rms (block : Block) : ℝ :=
  if blockSize block = 0 then 0
  else Real.sqrt (sumSquares block / (blockSize block : ℝ))

/-- Embeds the `EQEngine` dataclass: configuration fields, the
precomputed linear output gain (`self._output_gain`), the owned filter
chain and the latest meter snapshot. -/
structure EQEngine where
  sample_rate : ℝ
  channels : ℕ
  bypass : Bool
  output_gain_db : ℝ
  output_gain : ℝ
  chain : EQFilterChain
  meter : MeterSnapshot

/-- Embeds `EQEngine.__post_init__` (dataclass construction): builds the
chain and precomputes `10 ** (output_gain_db / 20)`. The source performs
no validation here, so construction never raises; the `Except` return
models Python exception behaviour uniformly with the other constructors. -/
def EQEngine.init (sample_rate : ℝ) (channels : ℕ) (bypass : Bool)
    (output_gain_db : ℝ) : Except String EQEngine :=
  .ok { sample_rate := sample_rate
        channels := channels
        bypass := bypass
        output_gain_db := output_gain_db
        output_gain := (10 : ℝ) ^ (output_gain_db / 20)
        chain := EQFilterChain.init sample_rate channels
        meter := { input_rms := 0, output_rms := 0 } }

/-- Embeds `EQEngine.set_output_gain`. -/
def EQEngine.set_output_gain (e : EQEngine) (gain_db : ℝ) : EQEngine :=
  { e with output_gain_db := gain_db, output_gain := (10 : ℝ) ^ (gain_db / 20) }

/-- In-place `processed *= gain` on a buffer. -/
def scaleBlock (g : ℝ) (block : Block) : Block :=
  block.map (fun frame => frame.map (fun x => x * g))

/-- `np.clip(processed, -1.0, 1.0)`: hard clamp of every sample. -/
def clipBlock (block : Block) : Block :=
  block.map (fun frame => frame.map (fun x => min (max x (-1)) 1))

/-- Embeds `EQEngine.process_block`. Returns
`(result, engine after the call, caller's input buffer after the call)`:
the validation raise happens before any mutation; in bypass mode the
input is copied before scaling; with no active filters the chain returns
the input buffer itself, so the in-place `*= output_gain` mutates the
caller's buffer. -/
def EQEngine.process_block (e : EQEngine) (block : Block) :
    Except String Block × EQEngine × Block :=
  if validShape e.channels block = false then
    (.error "Expected audio block shaped (frames, channels)", e, block)
  else
    let input_level := rms block
    if e.bypass then
      let processed := scaleBlock e.output_gain block
      let output_level := rms processed
      (.ok (clipBlock processed),
       { e with meter := { input_rms := input_level, output_rms := output_level } },
       block)
    else
      match e.chain.process block with
      | (.error m, chain2) => (.error m, { e with chain := chain2 }, block)
      | (.ok chainOut, chain2) =>
        let processed := scaleBlock e.output_gain chainOut
        let output_level := rms processed
        let inputAfter := if e.chain.filters.isEmpty then processed else block
        (.ok (clipBlock processed),
         { e with chain := chain2
                  meter := { input_rms := input_level, output_rms := output_level } },
         inputAfter)

/-- Two filters agree on everything except (possibly) their delay state:
same normalized coefficients and channel count. Used to state that
processing touches only `self.state`. -/
def sameCoeffs (f g : BiquadFilter) : Prop :=
  g.b0 = f.b0 ∧ g.b1 = f.b1 ∧ g.b2 = f.b2 ∧ g.a1 = f.a1 ∧ g.a2 = f.a2 ∧
    g.channels = f.channels

end

/-! ## Helper lemmas -/

/-- `sameCoeffs` holds between a list and itself. -/
theorem forall2_sameCoeffs_refl (fs : List BiquadFilter) :
    List.Forall₂ sameCoeffs fs fs :=
  List.forall₂_same.mpr (fun _ _ => ⟨rfl, rfl, rfl, rfl, rfl, rfl⟩)

/-- A successful `BiquadFilter.process` call changes only the delay
state: coefficients and channel count are preserved. -/
theorem process_preserves_coeffs (f g : BiquadFilter) (blk y : Block)
    (h : f.process blk = .ok (g, y)) : sameCoeffs f g := by
  unfold BiquadFilter.process at h
  by_cases hv : validShape f.channels blk = false
  · rw [if_pos hv] at h
    cases h
  · rw [if_neg hv] at h
    have h2 := Except.ok.inj h
    have hg : g = { f with state := processedState f blk } :=
      (congrArg Prod.fst h2).symm
    rw [hg]
    exact ⟨rfl, rfl, rfl, rfl, rfl, rfl⟩

/-- The cascade loop changes only delay states, keeping every filter's
coefficients and channel count, in order. -/
theorem chainRun_coeffs_frame : ∀ (fs : List BiquadFilter) (blk : Block),
    List.Forall₂ sameCoeffs fs (chainRun fs blk).2 := by
  intro fs
  induction fs with
  | nil => intro blk; exact .nil
  | cons f fs ih =>
    intro blk
    unfold chainRun
    cases hp : f.process blk with
    | error m => exact forall2_sameCoeffs_refl (f :: fs)
    | ok p => exact .cons (process_preserves_coeffs f p.1 blk p.2 hp) (ih p.2)

/-- `EQFilterChain.process` preserves the chain's configuration and every
filter's coefficients; only filter delay states may change. -/
theorem chain_process_frame (c : EQFilterChain) (blk : Block) :
    (c.process blk).2.sample_rate = c.sample_rate ∧
    (c.process blk).2.channels = c.channels ∧
    (c.process blk).2.bands = c.bands ∧
    List.Forall₂ sameCoeffs c.filters (c.process blk).2.filters := by
  unfold EQFilterChain.process
  by_cases he : c.filters.isEmpty
  · rw [if_pos he]
    exact ⟨rfl, rfl, rfl, forall2_sameCoeffs_refl c.filters⟩
  · rw [if_neg he]
    exact ⟨rfl, rfl, rfl, chainRun_coeffs_frame c.filters blk⟩

/-- `BiquadFilter.process` raises only the channel-mismatch message. -/
theorem biquad_process_error_msg (f : BiquadFilter) (block : Block) (m : String)
    (h : f.process block = .error m) : m = "Audio block channel mismatch" := by
  unfold BiquadFilter.process at h
  by_cases hv : validShape f.channels block = false
  · rw [if_pos hv] at h
    exact (Except.error.inj h).symm
  · rw [if_neg hv] at h
    exact absurd h (by simp)

/-- The cascade loop raises only the channel-mismatch message. -/
theorem chainRun_error_msg : ∀ (fs : List BiquadFilter) (block : Block) (m : String),
    (chainRun fs block).1 = .error m → m = "Audio block channel mismatch" := by
  intro fs
  induction fs with
  | nil => intro block m h; simp [chainRun] at h
  | cons f fs ih =>
    intro block m h
    unfold chainRun at h
    cases hp : f.process block with
    | error m2 =>
      rw [hp] at h
      have hm : m2 = m := Except.error.inj h
      exact biquad_process_error_msg f block m (by rw [hp, hm])
    | ok p =>
      rw [hp] at h
      exact ih p.2 m h

/-- `EQFilterChain.process` raises only the channel-mismatch message. -/
theorem chain_process_error_msg (c : EQFilterChain) (block : Block) (m : String)
    (h : (c.process block).1 = .error m) : m = "Audio block channel mismatch" := by
  unfold EQFilterChain.process at h
  by_cases he : c.filters.isEmpty
  · rw [if_pos he] at h; simp at h
  · rw [if_neg he] at h
    exact chainRun_error_msg c.filters block m h

/-! ## C6 -/

/-- C6: for a band whose `enabled` flag is false, `design_peaking_eq`
returns exactly the identity coefficient set `b = [1,0,0]`, `a = [1,0,0]`,
regardless of frequency, gain, Q and sample rate. -/
theorem design_disabled_identity (band : EQBand) (sample_rate : ℝ)
    (h : band.enabled = false) :
    design_peaking_eq band sample_rate = (⟨1, 0, 0⟩, ⟨1, 0, 0⟩) := by
  simp [design_peaking_eq, h]

/-- Witness for C6 at a concrete disabled band. -/
theorem design_disabled_identity_witness :
    design_peaking_eq ⟨1000, 6, 1.5, false⟩ 48000 = (⟨1, 0, 0⟩, ⟨1, 0, 0⟩) :=
  design_disabled_identity ⟨1000, 6, 1.5, false⟩ 48000 rfl

/-! ## C8 -/

/-- C8: the metering RMS is `sqrt(mean(block²))` over all samples and
channels combined (the flattened block), a zero-size block yields exactly
`0` rather than an error, and an all-zero block has RMS exactly `0`. -/
theorem rms_spec :
    (∀ b : Block, blockSize b = 0 → rms b = 0) ∧
    (∀ b : Block, (∀ fr ∈ b, ∀ x ∈ fr, x = (0 : ℝ)) → rms b = 0) ∧
    (∀ b : Block, blockSize b ≠ 0 →
      rms b = Real.sqrt (((b.flatten.map fun x => x * x).sum) /
        (b.flatten.length : ℝ))) := by
  have hlen : ∀ b : Block, b.flatten.length = blockSize b := by
    intro b; rw [List.length_flatten]; rfl
  have hsum : ∀ b : Block, (b.flatten.map fun x => x * x).sum = sumSquares b := by
    intro b
    rw [List.map_flatten, List.sum_flatten, List.map_map]
    rfl
  refine ⟨?_, ?_, ?_⟩
  · intro b h
    simp [rms, h]
  · intro b h
    have hz : sumSquares b = 0 := by
      apply List.sum_eq_zero
      intro s hs
      rw [List.mem_map] at hs
      obtain ⟨fr, hfr, rfl⟩ := hs
      apply List.sum_eq_zero
      intro y hy
      rw [List.mem_map] at hy
      obtain ⟨x, hx, rfl⟩ := hy
      rw [h fr hfr x hx]
      ring
    unfold rms
    split
    · rfl
    · rw [hz]
      simp
  · intro b h
    rw [rms, if_neg h, hsum, hlen]

/-- Witness for C8: zero-size and all-zero blocks at concrete inputs. -/
theorem rms_spec_witness :
    rms [] = 0 ∧ rms [[0, 0], [0, 0]] = 0 ∧
    rms [[3]] = Real.sqrt ((([(3 : ℝ)].map fun x => x * x).sum) / 1) := by
  refine ⟨rms_spec.1 [] rfl, rms_spec.2.1 [[0, 0], [0, 0]] ?_, ?_⟩
  · intro fr hfr x hx
    simp only [List.mem_cons, List.not_mem_nil, or_false, or_self] at hfr
    subst hfr
    simpa using hx
  · have := rms_spec.2.2 [[3]] (by simp [blockSize])
    simpa using this

/-! ## C10 -/

/-- C10: when `process_block` raises on an invalid shape, the engine is
unchanged — the meter still holds its previous snapshot and no filter
delay state has been touched — and the caller's input buffer is
untouched: shape validation precedes every mutation. -/
theorem process_block_invalid_shape (e : EQEngine) (block : Block)
    (h : validShape e.channels block = false) :
    e.process_block block =
      (.error "Expected audio block shaped (frames, channels)", e, block) := by
  simp [EQEngine.process_block, h]

/-- Witness for C10: a 1-channel block given to a freshly constructed
2-channel engine raises and leaves engine and buffer untouched. -/
theorem process_block_invalid_shape_witness :
    ∃ e, EQEngine.init 48000 2 false (-3) = .ok e ∧
      e.process_block [[1]] =
        (.error "Expected audio block shaped (frames, channels)", e, [[1]]) :=
  ⟨_, rfl, process_block_invalid_shape _ [[1]] rfl⟩

/-! ## C3 -/

/-- C3 counterexample: constructing the engine with a non-positive sample
rate does *not* raise — `EQEngine.__post_init__` performs no sample-rate
validation, so construction succeeds at `sample_rate = 0`. -/
theorem engine_init_accepts_nonpositive_rate :
    ∃ e, EQEngine.init 0 2 false (-3) = .ok e :=
  ⟨_, rfl⟩

/-- C3 (amended): configuration errors are raised at construction time
exactly for a `BiquadFilter` channel count < 1; the engine performs no
sample-rate validation, so its construction always succeeds; and the
processing path raises only shape-mismatch errors, never a
configuration error. -/
theorem configuration_error_policy :
    (∀ b a : Coeffs, ∀ ch : ℕ, ch < 1 →
      BiquadFilter.init b a ch = .error "BiquadFilter needs at least one channel") ∧
    (∀ b a : Coeffs, ∀ ch : ℕ, 1 ≤ ch → ∃ f, BiquadFilter.init b a ch = .ok f) ∧
    (∀ sample_rate : ℝ, ∀ ch : ℕ, ∀ byp : Bool, ∀ g : ℝ,
      ∃ e, EQEngine.init sample_rate ch byp g = .ok e) ∧
    (∀ e : EQEngine, ∀ block : Block, ∀ m : String,
      (e.process_block block).1 = .error m →
        m = "Expected audio block shaped (frames, channels)" ∨
        m = "Audio block channel mismatch") := by
  refine ⟨?_, ?_, ?_, ?_⟩
  · intro b a ch hch
    rw [BiquadFilter.init, if_pos hch]
  · intro b a ch hch
    rw [BiquadFilter.init, if_neg (by omega)]
    exact ⟨_, rfl⟩
  · intro sample_rate ch byp g
    exact ⟨_, rfl⟩
  · intro e block m h
    unfold EQEngine.process_block at h
    by_cases hv : validShape e.channels block = false
    · rw [if_pos hv] at h
      exact .inl (Except.error.inj h).symm
    · rw [if_neg hv] at h
      by_cases hb : e.bypass
      · simp [hb] at h
      · simp only [hb, Bool.false_eq_true, if_false] at h
        right
        cases hp : e.chain.process block with
        | mk r chain2 =>
          cases r with
          | error m2 =>
            rw [hp] at h
            simp only at h
            refine chain_process_error_msg e.chain block m ?_
            rw [hp, ← Except.error.inj h]
          | ok out =>
            rw [hp] at h
            simp at h

/-- Witness for C3's amended theorem at concrete inputs. -/
theorem configuration_error_policy_witness :
    BiquadFilter.init ⟨1, 0, 0⟩ ⟨1, 0, 0⟩ 0 =
      .error "BiquadFilter needs at least one channel" ∧
    (∃ f, BiquadFilter.init ⟨1, 0, 0⟩ ⟨1, 0, 0⟩ 2 = .ok f) ∧
    (∃ e, EQEngine.init (-1) 2 false 0 = .ok e) :=
  ⟨configuration_error_policy.1 ⟨1, 0, 0⟩ ⟨1, 0, 0⟩ 0 (by omega),
   configuration_error_policy.2.1 ⟨1, 0, 0⟩ ⟨1, 0, 0⟩ 2 (by omega),
   configuration_error_policy.2.2.1 (-1) 2 false 0⟩

/-! ## C4 -/

/-- C4: for an enabled band, the coefficient designer clamps frequency
into `[20, sampleRate/2.1]`, clamps Q to `max(Q, 0.05)`, computes
`A = 10^(gainDb/40)`, `ω = 2π·f/sampleRate`, `α = sin(ω)/(2Q)`, and
returns exactly the raw cookbook coefficients
`b = (1+αA, -2cos ω, 1-αA)`, `a = (1+α/A, -2cos ω, 1-α/A)`;
normalization by `a0` happens only at filter construction, which divides
both vectors by `a0`. -/
theorem design_enabled_formulas (band : EQBand) (sample_rate : ℝ)
    (h : band.enabled = true) :
    (design_peaking_eq band sample_rate =
      (let freq := min (max band.frequency 20) (sample_rate / 2.1)
       let A : ℝ := (10 : ℝ) ^ (band.gain_db / 40)
       let omega := 2 * Real.pi * freq / sample_rate
       let alpha := Real.sin omega / (2 * max band.q 0.05)
       (⟨1 + alpha * A, -2 * Real.cos omega, 1 - alpha * A⟩,
        ⟨1 + alpha / A, -2 * Real.cos omega, 1 - alpha / A⟩))) ∧
    (∀ b a : Coeffs, ∀ ch : ℕ, 1 ≤ ch →
      BiquadFilter.init b a ch = .ok
        { b0 := b.c0 / a.c0, b1 := b.c1 / a.c0, b2 := b.c2 / a.c0
          a1 := a.c1 / a.c0, a2 := a.c2 / a.c0
          channels := ch, state := List.replicate ch (0, 0) }) := by
  constructor
  · simp only [design_peaking_eq, h, Bool.true_eq_false, if_false]
    rw [max_comm band.q 0.05]
  · intro b a ch hch
    rw [BiquadFilter.init, if_neg (by omega)]

/-- Witness for C4 at a concrete enabled band and concrete raw
coefficients. -/
theorem design_enabled_formulas_witness :
    design_peaking_eq ⟨1000, 6, 1.5, true⟩ 48000 =
      (let freq := min (max (1000 : ℝ) 20) ((48000 : ℝ) / 2.1)
       let A : ℝ := (10 : ℝ) ^ ((6 : ℝ) / 40)
       let omega := 2 * Real.pi * freq / 48000
       let alpha := Real.sin omega / (2 * max (1.5 : ℝ) 0.05)
       (⟨1 + alpha * A, -2 * Real.cos omega, 1 - alpha * A⟩,
        ⟨1 + alpha / A, -2 * Real.cos omega, 1 - alpha / A⟩)) ∧
    BiquadFilter.init ⟨2, 0, 0⟩ ⟨4, 0, 0⟩ 2 = .ok
      { b0 := (2 : ℝ) / 4, b1 := (0 : ℝ) / 4, b2 := (0 : ℝ) / 4
        a1 := (0 : ℝ) / 4, a2 := (0 : ℝ) / 4
        channels := 2, state := List.replicate 2 (0, 0) } :=
  ⟨(design_enabled_formulas ⟨1000, 6, 1.5, true⟩ 48000 rfl).1,
   (design_enabled_formulas ⟨1000, 6, 1.5, true⟩ 48000 rfl).2
     ⟨2, 0, 0⟩ ⟨4, 0, 0⟩ 2 (by omega)⟩

/-! ## C2 -/

/-- C2 counterexample: `process_block` mutates more than the meter.
First call — bypass off, no active filters, non-unit output gain: the
in-place `processed *= output_gain` scales the caller's input buffer.
Second call — bypass off, one active filter: the filter's per-channel
delay state is no longer zero after the call, so engine state beyond the
meter snapshot changed. -/
theorem process_block_mutates_beyond_meter :
    (∃ e, EQEngine.init 48000 1 false 20 = .ok e ∧
      (e.process_block [[1]]).2.2 ≠ [[1]]) ∧
    (EQEngine.process_block
        { sample_rate := 48000, channels := 1, bypass := false, output_gain_db := 0
          output_gain := (10 : ℝ) ^ ((0 : ℝ) / 20)
          chain := { sample_rate := 48000, channels := 1, bands := []
                     filters := [{ b0 := 1, b1 := 1, b2 := 0, a1 := 0, a2 := 0
                                   channels := 1, state := [(0, 0)] }] }
          meter := { input_rms := 0, output_rms := 0 } }
        [[1]]).2.1.chain.filters.map (fun f => f.state) ≠ [[(0, 0)]] := by
  constructor
  · refine ⟨_, rfl, ?_⟩
    intro h
    have h1 : (10 : ℝ) ^ ((20 : ℝ) / 20) = 1 := by
      have h0 := congrArg (fun l : Block => (l.getD 0 []).getD 0 0) h
      simp [EQEngine.process_block, EQFilterChain.process, EQFilterChain.init,
        validShape, scaleBlock, clipBlock, rms] at h0
    have h2 : ((20 : ℝ) / 20) = 1 := by norm_num
    rw [h2, Real.rpow_one] at h1
    norm_num at h1
  · intro h
    simp [EQEngine.process_block, EQFilterChain.process, chainRun,
      BiquadFilter.process, validShape, processedState, processedOut,
      runChannel, biquadChannel, biquadStep, chState, column] at h
    rw [show List.range 1 = [0] from rfl] at h
    simp [Prod.ext_iff] at h

/-- C2 (amended): for a valid block, `process_block` mutates only the
meter snapshot, the delay states of the active filters, and — when
bypass is off and no filter is active — the caller's input buffer:
the returned engine preserves sample rate, channel count, bypass flag,
output gain (dB and linear), the chain's configuration and stored bands,
and every filter's coefficients and channel count; the caller's input
buffer is unchanged whenever bypass is on or at least one filter is
active, and with bypass off and no active filters the chain hands back
the buffer itself and the in-place gain stage leaves it scaled by the
linear output gain. -/
theorem process_block_frame (e : EQEngine) (block : Block)
    (hs : validShape e.channels block = true) :
    ((e.process_block block).2.1.sample_rate = e.sample_rate ∧
     (e.process_block block).2.1.channels = e.channels ∧
     (e.process_block block).2.1.bypass = e.bypass ∧
     (e.process_block block).2.1.output_gain_db = e.output_gain_db ∧
     (e.process_block block).2.1.output_gain = e.output_gain ∧
     (e.process_block block).2.1.chain.sample_rate = e.chain.sample_rate ∧
     (e.process_block block).2.1.chain.channels = e.chain.channels ∧
     (e.process_block block).2.1.chain.bands = e.chain.bands ∧
     List.Forall₂ sameCoeffs e.chain.filters
       (e.process_block block).2.1.chain.filters) ∧
    ((e.bypass = true ∨ e.chain.filters ≠ []) →
      (e.process_block block).2.2 = block) ∧
    (e.bypass = false → e.chain.filters = [] →
      (e.process_block block).2.2 = scaleBlock e.output_gain block) := by
  have hv : ¬ validShape e.channels block = false := by simp [hs]
  refine ⟨?_, ?_, ?_⟩
  · unfold EQEngine.process_block
    rw [if_neg hv]
    by_cases hb : e.bypass = true
    · simp only [hb, if_true]
      refine ⟨?_, ?_, ?_, ?_, ?_, ?_, ?_, ?_, ?_⟩ <;>
        first
          | trivial
          | exact forall2_sameCoeffs_refl e.chain.filters
    · simp only [hb, if_false]
      have hcf := chain_process_frame e.chain block
      cases hp : e.chain.process block with
      | mk r chain2 =>
        rw [hp] at hcf
        cases r with
        | error m =>
          exact ⟨rfl, rfl, rfl, rfl, rfl, hcf.1, hcf.2.1, hcf.2.2.1, hcf.2.2.2⟩
        | ok out =>
          exact ⟨rfl, rfl, rfl, rfl, rfl, hcf.1, hcf.2.1, hcf.2.2.1, hcf.2.2.2⟩
  · intro hcase
    unfold EQEngine.process_block
    rw [if_neg hv]
    by_cases hb : e.bypass = true
    · simp [hb]
    · have hne : e.chain.filters ≠ [] := by
        rcases hcase with hcase | hcase
        · exact absurd hcase hb
        · exact hcase
      have hemp : e.chain.filters.isEmpty = false := by
        cases hfs : e.chain.filters with
        | nil => exact absurd hfs hne
        | cons x xs => rfl
      simp only [hb, if_false]
      cases hp : e.chain.process block with
      | mk r chain2 =>
        cases r with
        | error m => simp
        | ok out => simp [hemp]
  · intro hb hfs
    unfold EQEngine.process_block
    rw [if_neg hv]
    have hchain : e.chain.process block = (.ok block, e.chain) := by
      unfold EQFilterChain.process
      rw [hfs]
      rfl
    simp only [hb, if_false]
    rw [hchain]
    have hemp : e.chain.filters.isEmpty = true := by rw [hfs]; rfl
    simp [hemp]

/-- Witness for C2's amended theorem: a bypassed engine keeps its
configuration and leaves the input buffer untouched. -/
theorem process_block_frame_witness :
    ∃ e, EQEngine.init 48000 2 true 0 = .ok e ∧
      ((e.process_block [[1, 1]]).2.1.bypass = e.bypass ∧
       (e.process_block [[1, 1]]).2.1.output_gain_db = e.output_gain_db ∧
       (e.process_block [[1, 1]]).2.1.chain.bands = e.chain.bands) ∧
      (e.process_block [[1, 1]]).2.2 = [[1, 1]] := by
  refine ⟨{ sample_rate := 48000, channels := 2, bypass := true, output_gain_db := 0
            output_gain := (10 : ℝ) ^ ((0 : ℝ) / 20)
            chain := EQFilterChain.init 48000 2
            meter := { input_rms := 0, output_rms := 0 } }, rfl, ?_, ?_⟩
  · have h := (process_block_frame
      { sample_rate := 48000, channels := 2, bypass := true, output_gain_db := 0
        output_gain := (10 : ℝ) ^ ((0 : ℝ) / 20)
        chain := EQFilterChain.init 48000 2
        meter := { input_rms := 0, output_rms := 0 } } [[1, 1]] (by rfl)).1
    exact ⟨h.2.2.1, h.2.2.2.1, h.2.2.2.2.2.2.2.1⟩
  · exact (process_block_frame
      { sample_rate := 48000, channels := 2, bypass := true, output_gain_db := 0
        output_gain := (10 : ℝ) ^ ((0 : ℝ) / 20)
        chain := EQFilterChain.init 48000 2
        meter := { input_rms := 0, output_rms := 0 } } [[1, 1]] (by rfl)).2.1
      (Or.inl rfl)

/-! ## Construction helpers -/

/-- With a valid channel count, `BiquadFilter.init` succeeds and yields
the normalized coefficients and a zeroed per-channel state. -/
theorem biquad_init_eq (b a : Coeffs) (channels : ℕ) (hch : 1 ≤ channels) :
    BiquadFilter.init b a channels = .ok
      { b0 := b.c0 / a.c0, b1 := b.c1 / a.c0, b2 := b.c2 / a.c0
        a1 := a.c1 / a.c0, a2 := a.c2 / a.c0
        channels := channels, state := List.replicate channels (0, 0) } := by
  rw [BiquadFilter.init, if_neg (by omega)]

/-- With a valid channel count, `from_eq_band` succeeds with the
normalized designed coefficients and zero state. -/
theorem from_eq_band_ok (band : EQBand) (sample_rate : ℝ) (channels : ℕ)
    (hch : 1 ≤ channels) :
    BiquadFilter.from_eq_band band sample_rate channels = .ok
      { b0 := (design_peaking_eq band sample_rate).1.c0 /
                (design_peaking_eq band sample_rate).2.c0
        b1 := (design_peaking_eq band sample_rate).1.c1 /
                (design_peaking_eq band sample_rate).2.c0
        b2 := (design_peaking_eq band sample_rate).1.c2 /
                (design_peaking_eq band sample_rate).2.c0
        a1 := (design_peaking_eq band sample_rate).2.c1 /
                (design_peaking_eq band sample_rate).2.c0
        a2 := (design_peaking_eq band sample_rate).2.c2 /
                (design_peaking_eq band sample_rate).2.c0
        channels := channels, state := List.replicate channels (0, 0) } := by
  unfold BiquadFilter.from_eq_band
  exact biquad_init_eq _ _ _ hch

/-- With a valid channel count the filter-building comprehension
succeeds, pairing every band with its constructed filter in order. -/
theorem buildFilters_ok (sample_rate : ℝ) (channels : ℕ) (hch : 1 ≤ channels)
    (bs : List EQBand) :
    ∃ fs, buildFilters sample_rate channels bs = .ok fs ∧
      List.Forall₂
        (fun b f => BiquadFilter.from_eq_band b sample_rate channels = .ok f)
        bs fs := by
  induction bs with
  | nil => exact ⟨[], rfl, .nil⟩
  | cons b bs ih =>
    obtain ⟨fs, hfs, hall⟩ := ih
    refine ⟨_ :: fs, ?_, .cons (from_eq_band_ok b sample_rate channels hch) hall⟩
    unfold buildFilters
    rw [from_eq_band_ok b sample_rate channels hch, hfs]

/-! ## C7 -/

/-- C7: with bypass on and output gain 0 dB (the precomputed linear gain
being `10^(dB/20)`), `process_block` succeeds and returns the input with
every sample clamped to `[-1, 1]` — in particular in-range samples are
returned unchanged and the shape is preserved — while the caller's input
buffer is left untouched (the bypass path copies before scaling). -/
theorem bypass_zero_gain_clips (e : EQEngine) (block : Block)
    (hb : e.bypass = true) (hg : e.output_gain_db = 0)
    (hinv : e.output_gain = (10 : ℝ) ^ (e.output_gain_db / 20))
    (hs : validShape e.channels block = true) :
    ∃ e2, e.process_block block =
      (.ok (block.map (fun frame => frame.map (fun x => min (max x (-1)) 1))),
       e2, block) := by
  have hgain : e.output_gain = 1 := by
    rw [hinv, hg]
    norm_num
  have hscale : scaleBlock e.output_gain block = block := by
    unfold scaleBlock
    rw [hgain]
    simp
  have hpb : e.process_block block =
      (.ok (clipBlock (scaleBlock e.output_gain block)),
       { e with meter := { input_rms := rms block
                           output_rms := rms (scaleBlock e.output_gain block) } },
       block) := by
    unfold EQEngine.process_block
    rw [if_neg (by simp [hs]), if_pos hb]
  rw [hpb, hscale]
  exact ⟨_, rfl⟩

/-- Witness for C7: a bypassed, 0 dB engine clamps `[[2, 1/2]]` and
leaves the caller's buffer untouched. -/
theorem bypass_zero_gain_clips_witness :
    ∃ e, EQEngine.init 48000 2 true 0 = .ok e ∧
      ∃ e2, e.process_block [[2, 1/2]] =
        (.ok ([[2, 1/2]].map (fun frame => frame.map (fun x => min (max x (-1)) 1))),
         e2, [[2, 1/2]]) := by
  refine ⟨_, rfl, ?_⟩
  exact bypass_zero_gain_clips _ [[2, 1/2]] rfl rfl rfl (by rfl)

/-- Every filter built by the `set_bands` comprehension carries the
configured channel count and a fresh zero delay state. -/
theorem forall2_built_filters_state (sample_rate : ℝ) (channels : ℕ)
    (hch : 1 ≤ channels) (lb : List EQBand) (fs : List BiquadFilter)
    (hall : List.Forall₂
      (fun b f => BiquadFilter.from_eq_band b sample_rate channels = .ok f)
      lb fs) :
    ∀ f ∈ fs, f.channels = channels ∧ f.state = List.replicate channels (0, 0) := by
  induction hall with
  | nil => intro f hf; cases hf
  | cons hr _ ih =>
    rename_i band hd l1 l2 htail
    intro f hf
    rcases List.mem_cons.mp hf with hf | hf
    · subst hf
      have hok := from_eq_band_ok band sample_rate channels hch
      have h2 := Except.ok.inj (hr.symm.trans hok)
      rw [h2]
      exact ⟨rfl, rfl⟩
    · exact ih f hf

/-! ## C9 -/

/-- C9: `set_bands` replaces the whole band list: every stored band is
the input band with frequency clamped into `[20, sampleRate/2.1]` and
gain, Q and enabled flag unchanged; exactly one `BiquadFilter` — with the
configured channel count and a fresh zero delay state — is built per
*enabled* stored band, in list order (so no delay state exists for a
disabled band); sample rate and channel count are untouched. -/
theorem set_bands_spec (c : EQFilterChain) (bs : List EQBand)
    (hch : 1 ≤ c.channels) :
    (c.set_bands bs).1 = .ok () ∧
    (c.set_bands bs).2.bands = bs.map (fun b =>
      { frequency := min (max b.frequency 20) (c.sample_rate / 2.1)
        gain_db := b.gain_db, q := b.q, enabled := b.enabled }) ∧
    List.Forall₂
      (fun b f => BiquadFilter.from_eq_band b c.sample_rate c.channels = .ok f)
      ((c.set_bands bs).2.bands.filter (fun b => b.enabled))
      (c.set_bands bs).2.filters ∧
    (∀ f ∈ (c.set_bands bs).2.filters,
      f.channels = c.channels ∧ f.state = List.replicate c.channels (0, 0)) ∧
    (c.set_bands bs).2.sample_rate = c.sample_rate ∧
    (c.set_bands bs).2.channels = c.channels := by
  obtain ⟨fs, hfs, hall⟩ := buildFilters_ok c.sample_rate c.channels hch
    ((bs.map (fun b => b.clip 20 (c.sample_rate / 2.1))).filter (fun b => b.enabled))
  have hsb : c.set_bands bs =
      (.ok (), { c with bands := bs.map (fun b => b.clip 20 (c.sample_rate / 2.1))
                        filters := fs }) := by
    simp only [EQFilterChain.set_bands]
    rw [hfs]
  rw [hsb]
  refine ⟨rfl, rfl, ?_, ?_, rfl, rfl⟩
  · simpa using hall
  · intro f hf
    simp only at hf
    exact forall2_built_filters_state c.sample_rate c.channels hch _ fs hall f hf

/-- Witness for C9: one enabled band on a fresh 2-channel chain. -/
theorem set_bands_spec_witness :
    ((EQFilterChain.init 48000 2).set_bands [⟨1000, 6, 1.5, true⟩]).1 = .ok () ∧
    ((EQFilterChain.init 48000 2).set_bands [⟨1000, 6, 1.5, true⟩]).2.bands =
      [⟨min (max (1000 : ℝ) 20) ((48000 : ℝ) / 2.1), 6, 1.5, true⟩] := by
  have h := set_bands_spec (EQFilterChain.init 48000 2) [⟨1000, 6, 1.5, true⟩]
    (by decide)
  exact ⟨h.1, by simpa [EQFilterChain.init] using h.2.1⟩

/-! ## Identity-filter lemmas (towards C5) -/

/-- A biquad whose normalized feed-forward vector equals its feedback
vector (`b0 = 1`, `b1 = a1`, `b2 = a2`) passes samples through unchanged
from zero state, and its state stays zero. -/
theorem biquadChannel_identity (c1 c2 : ℝ) :
    ∀ xs : List ℝ, biquadChannel 1 c1 c2 c1 c2 0 0 xs = (xs, 0, 0) := by
  intro xs
  induction xs with
  | nil => rfl
  | cons x xs ih =>
    simp only [biquadChannel, biquadStep]
    rw [show c1 * x - c1 * ((1 : ℝ) * x + 0) + 0 = 0 from by ring,
        show c2 * x - c2 * ((1 : ℝ) * x + 0) = 0 from by ring,
        ih,
        show (1 : ℝ) * x + 0 = x from by ring]

/-- Reading every index of a list back with `getD` reproduces the list. -/
theorem map_range_getD (l : List ℝ) :
    (List.range l.length).map (fun c => l.getD c 0) = l := by
  apply List.ext_getElem
  · simp
  · intro i h1 h2
    simp [List.getD_eq_getElem _ _ (by simpa using h2), List.getElem?_eq_getElem h2]

/-- Rebuilding a rectangular block from its columns reproduces the
block. -/
theorem reassemble_block (ch : ℕ) (block : Block) (hs : validShape ch block = true) :
    (List.range block.length).map
      (fun i => (List.range ch).map (fun c => (column c block).getD i 0)) = block := by
  apply List.ext_getElem
  · simp
  · intro i h1 h2
    simp only [List.getElem_map, List.getElem_range]
    have hlen : block[i].length = ch := by
      rw [validShape, List.all_eq_true] at hs
      simpa using hs block[i] (List.getElem_mem h2)
    have hcol : ∀ c : ℕ, (column c block).getD i 0 = block[i].getD c 0 := by
      intro c
      rw [column, List.getD_eq_getElem _ _ (by simpa using h2)]
      simp
    calc (List.range ch).map (fun c => (column c block).getD i 0)
        = (List.range ch).map (fun c => block[i].getD c 0) := by
          exact List.map_congr_left (fun c _ => hcol c)
      _ = block[i] := by rw [← hlen]; exact map_range_getD block[i]

/-- The delay state read of a zeroed filter is zero at every index. -/
theorem chState_replicate_zero (ch i : ℕ) :
    (List.replicate ch ((0 : ℝ), (0 : ℝ))).getD i (0, 0) = (0, 0) := by
  rcases Nat.lt_or_ge i ch with h | h
  · rw [List.getD_eq_getElem _ _ (by simpa using h)]
    simp
  · rw [List.getD_eq_default _ _ (by simpa using h)]

/-- A filter with `b0 = 1`, `b1 = a1`, `b2 = a2` and zero state maps any
valid block to itself and is returned unchanged. -/
theorem process_identity_filter (c1 c2 : ℝ) (ch : ℕ) (block : Block)
    (hs : validShape ch block = true) :
    BiquadFilter.process
      { b0 := 1, b1 := c1, b2 := c2, a1 := c1, a2 := c2, channels := ch
        state := List.replicate ch (0, 0) } block =
      .ok ({ b0 := 1, b1 := c1, b2 := c2, a1 := c1, a2 := c2, channels := ch
             state := List.replicate ch (0, 0) }, block) := by
  unfold BiquadFilter.process
  rw [if_neg (by simp [hs])]
  have hrun : ∀ c : ℕ,
      biquadChannel 1 c1 c2 c1 c2
        (chState { b0 := 1, b1 := c1, b2 := c2, a1 := c1, a2 := c2, channels := ch
                   state := List.replicate ch (0, 0) } c).1
        (chState { b0 := 1, b1 := c1, b2 := c2, a1 := c1, a2 := c2, channels := ch
                   state := List.replicate ch (0, 0) } c).2
        (column c block) = (column c block, 0, 0) := by
    intro c
    rw [chState, chState_replicate_zero]
    exact biquadChannel_identity c1 c2 (column c block)
  unfold processedState processedOut runChannel
  dsimp only
  simp only [hrun]
  rw [List.map_const', List.length_range, reassemble_block ch block hs]

/-- With a positive sample rate, the clamped angular frequency
`ω = 2π·clip(f)/sr` lies in `(0, π)`, so `sin ω > 0`: the clamp to
`[20, sr/2.1]` keeps `ω` strictly below `π`
(`2π/2.1 < π`). -/
theorem clamped_omega_sin_pos (fv sr : ℝ) (hsr : 0 < sr) :
    0 < Real.sin (2 * Real.pi * min (max fv 20) (sr / 2.1) / sr) := by
  have hf : 0 < min (max fv 20) (sr / 2.1) := by
    apply lt_min
    · linarith [le_max_right fv 20]
    · positivity
  have hw0 : 0 < 2 * Real.pi * min (max fv 20) (sr / 2.1) / sr := by
    apply div_pos _ hsr
    exact mul_pos (by positivity) hf
  have hwpi : 2 * Real.pi * min (max fv 20) (sr / 2.1) / sr < Real.pi := by
    have hle : min (max fv 20) (sr / 2.1) ≤ sr / 2.1 := min_le_right _ _
    have h1 : 2 * Real.pi * min (max fv 20) (sr / 2.1) ≤ 2 * Real.pi * (sr / 2.1) :=
      mul_le_mul_of_nonneg_left hle (by positivity)
    have h2 : 2 * Real.pi * (sr / 2.1) / sr = 2 * Real.pi / 2.1 := by
      field_simp
      ring
    have h3 : 2 * Real.pi / 2.1 < Real.pi := by
      rw [div_lt_iff₀ (by norm_num : (0 : ℝ) < 2.1)]
      nlinarith [Real.pi_pos]
    calc 2 * Real.pi * min (max fv 20) (sr / 2.1) / sr
        ≤ 2 * Real.pi * (sr / 2.1) / sr := (div_le_div_iff_of_pos_right hsr).mpr h1
      _ = 2 * Real.pi / 2.1 := h2
      _ < Real.pi := h3
  exact Real.sin_pos_of_pos_of_lt_pi hw0 hwpi

/-- For an enabled zero-gain band at a positive sample rate,
`A = 10^(0/40) = 1` makes the raw feed-forward and feedback vectors of
`design_peaking_eq` coincide, with a strictly positive `α`. -/
theorem design_zero_gain_coeffs (fv qv sr : ℝ) (hsr : 0 < sr) :
    ∃ alpha c : ℝ, 0 < alpha ∧
      design_peaking_eq ⟨fv, 0, qv, true⟩ sr =
        (⟨1 + alpha, c, 1 - alpha⟩, ⟨1 + alpha, c, 1 - alpha⟩) := by
  refine ⟨Real.sin (2 * Real.pi * min (max fv 20) (sr / 2.1) / sr) / (2 * max 0.05 qv),
    -2 * Real.cos (2 * Real.pi * min (max fv 20) (sr / 2.1) / sr), ?_, ?_⟩
  · apply div_pos (clamped_omega_sin_pos fv sr hsr)
    have : (0.05 : ℝ) ≤ max 0.05 qv := le_max_left _ _
    nlinarith
  · unfold design_peaking_eq
    rw [if_neg (by simp)]
    dsimp only
    rw [zero_div, Real.rpow_zero, mul_one, div_one]

/-! ## C5 -/

/-- C5: an enabled band with `gainDb = 0` — any frequency and Q, any
positive sample rate — yields a filter that, from its fresh zero delay
state, maps every valid block to itself exactly (the normalized
feed-forward and feedback coefficient vectors coincide) and whose state
stays zero. -/
theorem zero_gain_identity (fv qv sr : ℝ) (ch : ℕ) (block : Block)
    (hsr : 0 < sr) (hch : 1 ≤ ch) (hs : validShape ch block = true) :
    ∃ f, BiquadFilter.from_eq_band ⟨fv, 0, qv, true⟩ sr ch = .ok f ∧
      f.process block = .ok (f, block) := by
  obtain ⟨alpha, c, hapos, hdes⟩ := design_zero_gain_coeffs fv qv sr hsr
  have hok := from_eq_band_ok ⟨fv, 0, qv, true⟩ sr ch hch
  rw [hdes] at hok
  dsimp only at hok
  have hne : (1 + alpha) ≠ 0 := by linarith
  rw [div_self hne] at hok
  exact ⟨_, hok, process_identity_filter (c / (1 + alpha)) ((1 - alpha) / (1 + alpha))
    ch block hs⟩

/-- Witness for C5: a zero-gain band at 48 kHz on one channel passes a
concrete block through unchanged. -/
theorem zero_gain_identity_witness :
    ∃ f, BiquadFilter.from_eq_band ⟨1000, 0, 1.5, true⟩ 48000 1 = .ok f ∧
      f.process [[1], [0], [-1/2]] = .ok (f, [[1], [0], [-1/2]]) :=
  zero_gain_identity 1000 1.5 48000 1 [[1], [0], [-1/2]]
    (by norm_num) (by norm_num) (by rfl)

/-! ## Block-splitting lemmas (towards C1) -/

/-- Running the recurrence over a concatenation equals running it over
the first part and then, from the final delay values, over the second. -/
theorem biquadChannel_append (b0 b1 b2 a1 a2 : ℝ) :
    ∀ (xs ys : List ℝ) (z1 z2 : ℝ),
      biquadChannel b0 b1 b2 a1 a2 z1 z2 (xs ++ ys) =
        ((biquadChannel b0 b1 b2 a1 a2 z1 z2 xs).1 ++
          (biquadChannel b0 b1 b2 a1 a2
            (biquadChannel b0 b1 b2 a1 a2 z1 z2 xs).2.1
            (biquadChannel b0 b1 b2 a1 a2 z1 z2 xs).2.2 ys).1,
         (biquadChannel b0 b1 b2 a1 a2
            (biquadChannel b0 b1 b2 a1 a2 z1 z2 xs).2.1
            (biquadChannel b0 b1 b2 a1 a2 z1 z2 xs).2.2 ys).2) := by
  intro xs
  induction xs with
  | nil => intro ys z1 z2; rfl
  | cons x xs ih =>
    intro ys z1 z2
    simp only [List.cons_append, biquadChannel, List.append_eq]
    rw [ih]

/-- The recurrence emits one output sample per input sample. -/
theorem biquadChannel_length (b0 b1 b2 a1 a2 : ℝ) :
    ∀ (xs : List ℝ) (z1 z2 : ℝ),
      (biquadChannel b0 b1 b2 a1 a2 z1 z2 xs).1.length = xs.length := by
  intro xs
  induction xs with
  | nil => intro z1 z2; rfl
  | cons x xs ih =>
    intro z1 z2
    simp only [biquadChannel, List.length_cons]
    rw [ih]

/-- Column extraction distributes over block concatenation. -/
theorem column_append (c : ℕ) (u v : Block) :
    column c (u ++ v) = column c u ++ column c v :=
  List.map_append _ u v

/-- Channel `c`'s output column has one sample per frame. -/
theorem runChannel_length (f : BiquadFilter) (blk : Block) (c : ℕ) :
    (runChannel f blk c).1.length = blk.length := by
  rw [runChannel, biquadChannel_length, column, List.length_map]

/-- `getD` on a map over `List.range` evaluates the function. -/
theorem getD_map_range {β : Type} (g : ℕ → β) (n c : ℕ) (hc : c < n) (d : β) :
    ((List.range n).map g).getD c d = g c := by
  rw [List.getD_eq_getElem _ _ (by simpa using hc)]
  simp

/-- After processing one block, channel `c`'s stored state is the final
`(z1, z2)` of that channel's run. -/
theorem chState_after_process (f : BiquadFilter) (u : Block) (c : ℕ)
    (hc : c < f.channels) :
    chState { f with state := processedState f u } c = (runChannel f u c).2 := by
  have h0 : chState { f with state := processedState f u } c
      = (processedState f u).getD c (0, 0) := rfl
  rw [h0, processedState,
    getD_map_range (fun c2 => (runChannel f u c2).2) f.channels c hc (0, 0)]

/-- Per channel, processing `u ++ v` equals processing `u` and then `v`
from the persisted state. -/
theorem runChannel_append (f : BiquadFilter) (u v : Block) (c : ℕ)
    (hc : c < f.channels) :
    runChannel f (u ++ v) c =
      ((runChannel f u c).1 ++
        (runChannel { f with state := processedState f u } v c).1,
       (runChannel { f with state := processedState f u } v c).2) := by
  have h1 : runChannel f (u ++ v) c =
      biquadChannel f.b0 f.b1 f.b2 f.a1 f.a2 (chState f c).1 (chState f c).2
        (column c u ++ column c v) := by
    rw [runChannel, column_append]
  have h2 : runChannel { f with state := processedState f u } v c =
      biquadChannel f.b0 f.b1 f.b2 f.a1 f.a2
        (runChannel f u c).2.1 (runChannel f u c).2.2 (column c v) := by
    rw [runChannel]
    dsimp only
    rw [chState_after_process f u c hc]
  rw [h1, biquadChannel_append, h2,
    show runChannel f u c =
      biquadChannel f.b0 f.b1 f.b2 f.a1 f.a2 (chState f c).1 (chState f c).2
        (column c u) from rfl]

/-- On a valid block, `process` succeeds with the per-channel outputs and
persisted states. -/
theorem process_ok (f : BiquadFilter) (blk : Block)
    (h : validShape f.channels blk = true) :
    f.process blk = .ok ({ f with state := processedState f blk },
      processedOut f blk) := by
  unfold BiquadFilter.process
  rw [if_neg (by simp [h])]

/-! ## C1 -/

/-- C1: for every filter instance and valid blocks `u`, `v` of the
configured channel count, processing `u ++ v` in one call yields exactly
the concatenation of the outputs of two successive calls on `u` then `v`,
and the same final filter state — the persisted per-channel `(z1, z2)`
delay values carry the computation across the block boundary (exact
equality in this real-arithmetic model). -/
theorem biquad_process_split (f : BiquadFilter) (u v : Block)
    (hu : validShape f.channels u = true) (hv : validShape f.channels v = true) :
    ∃ f1 y1 f2 y2,
      f.process u = .ok (f1, y1) ∧ f1.process v = .ok (f2, y2) ∧
      f.process (u ++ v) = .ok (f2, y1 ++ y2) := by
  have huv : validShape f.channels (u ++ v) = true := by
    rw [validShape] at hu hv ⊢
    rw [List.all_append, hu, hv]
    rfl
  refine ⟨{ f with state := processedState f u }, processedOut f u,
    _, _, process_ok f u hu,
    process_ok { f with state := processedState f u } v hv, ?_⟩
  rw [process_ok f (u ++ v) huv]
  have hstate : processedState f (u ++ v) =
      processedState { f with state := processedState f u } v := by
    rw [processedState, processedState]
    apply List.map_congr_left
    intro c hc
    rw [List.mem_range] at hc
    rw [runChannel_append f u v c hc]
  have hout : processedOut f (u ++ v) =
      processedOut f u ++ processedOut { f with state := processedState f u } v := by
    rw [processedOut, processedOut, processedOut, List.length_append,
      List.range_add, List.map_append, List.map_map]
    congr 1
    · apply List.map_congr_left
      intro i hi
      rw [List.mem_range] at hi
      apply List.map_congr_left
      intro c hc
      rw [List.mem_range] at hc
      rw [runChannel_append f u v c hc]
      exact List.getD_append _ _ _ _ (by rw [runChannel_length]; exact hi)
    · apply List.map_congr_left
      intro j hj
      rw [List.mem_range] at hj
      dsimp only [Function.comp]
      apply List.map_congr_left
      intro c hc
      rw [List.mem_range] at hc
      rw [runChannel_append f u v c hc]
      rw [List.getD_append_right _ _ _ _ (by rw [runChannel_length]; omega),
        runChannel_length, Nat.add_sub_cancel_left]
  rw [hstate, hout]

/-- Witness for C1: a concrete one-channel filter splits `[[1]] ++ [[2]]`
exactly. -/
theorem biquad_process_split_witness :
    ∃ f1 y1 f2 y2,
      BiquadFilter.process
        { b0 := 1/2, b1 := 1/4, b2 := 1/8, a1 := 1/16, a2 := 1/32, channels := 1
          state := [(0, 0)] } [[1]] = .ok (f1, y1) ∧
      f1.process [[2]] = .ok (f2, y2) ∧
      BiquadFilter.process
        { b0 := 1/2, b1 := 1/4, b2 := 1/8, a1 := 1/16, a2 := 1/32, channels := 1
          state := [(0, 0)] } ([[1]] ++ [[2]]) = .ok (f2, y1 ++ y2) :=
  biquad_process_split
    { b0 := 1/2, b1 := 1/4, b2 := 1/8, a1 := 1/16, a2 := 1/32, channels := 1
      state := [(0, 0)] } [[1]] [[2]] (by rfl) (by rfl)

end SystemwideEQ
